import Mathlib

/-!
Verification of the go-reddit streaming engine (`reddit` package).

This file gives a shallow embedding of the polling/streaming engine and its
supporting data structures:

* `set` — `set.go`: `type set map[string]struct{}` with `Add`, `Exists`, `Len`.
  The Go map is modelled as a duplicate-free list of strings; `Add` inserts
  only when absent, so `Len` matches the map's cardinality.
* `highWaterMark` — `set.go` (bounded recency stack): `NewHighWaterMark`,
  `Len`, `Top`, `Push`, `Pop`.  The Go field `cap` is a `uint32` and the
  capacity test casts the length with `uint32(h.Len())`, which is modelled
  with an explicit `% 2^32`.
* the stream engine loops of `stream.go`.  The repository contains a legacy
  variant (`for ; ; <-ticker.C`, no context) and context-aware variants
  (`doStreamWithCustomIDGet`, `InboxUnread`, `Reported`) that wait on
  `select { case <-ctx.Done() ...; case <-ticker.C }`.  Each loop is
  embedded as a function from a finite schedule of round outcomes
  (cancellation / fetch error / fetched page) to the sequence of
  observable events (tick waited, fetch attempted, item or error sent on a
  channel, channels closed).  Channel sends are recorded in program order;
  real time and blocking are abstracted into the tick/send events.
-/

/-- Width modulus for Go's `uint32`, used by `highWaterMark`'s capacity test. -/
def UINT32MOD : Nat := 2 ^ 32

/-! ## `set` (set.go) -/

/-- Go `type set map[string]struct{}` — modelled as a duplicate-free list of the
map's keys (most recently inserted first). -/
abbrev set := List String

/-- The empty `set{}` literal. -/
def set.empty : set := []

/-- Go `func (s set) Exists(v string) bool { _, ok := s[v]; return ok }`. -/
def set.Exists (s : set) (v : String) : Bool := List.contains s v

/-- Go `func (s set) Add(v string) { s[v] = struct{}{} }` — on a map, inserting a
present key is a no-op; on the list model we insert only when absent. -/
def set.Add (s : set) (v : String) : set :=
  if List.contains s v then s else v :: s

/-- Go `func (s set) Len() int { return len(s) }`. -/
def set.Len (s : set) : Nat := List.length s

/-! ## `highWaterMark` (set.go) -/

/-- Go `type highWaterMark struct { marks []string; cap uint32 }`. -/
structure highWaterMark where
  marks : List String
  cap : Nat
  deriving DecidableEq, Repr

/-- Go `func NewHighWaterMark(cap uint32, items ...string) HighWaterMark`. -/
def NewHighWaterMark (cap : Nat) (items : List String) : highWaterMark :=
  { marks := items, cap := cap % UINT32MOD }

/-- Go `func (h *highWaterMark) Len() int` (non-nil receiver). -/
def highWaterMark.Len (h : highWaterMark) : Nat := h.marks.length

/-- Go `func (h *highWaterMark) Top() string` for a possibly-nil receiver.
`none` as input models the nil pointer (which returns `""`); for a non-nil
receiver the Go code evaluates `h.marks[h.Len()-1]`, which on an empty slice
indexes out of range and panics — the panic is modelled as result `none`. -/
def highWaterMark.TopFrom (h : Option highWaterMark) : Option String :=
  match h with
  | none => some ""
  | some hw => hw.marks.getLast?

/-- Go `func (h *highWaterMark) Push(item string) bool` (non-nil receiver; the
nil receiver panics and is not modelled).  The capacity test is
`uint32(h.Len()) == h.cap`; when it fires the bottom element is dropped
(`h.marks = h.marks[1:h.Len()]`) before appending, and `true` is returned. -/
def highWaterMark.Push (h : highWaterMark) (item : String) : highWaterMark × Bool :=
  if h.Len % UINT32MOD = h.cap then
    ({ h with marks := h.marks.tail ++ [item] }, true)
  else
    ({ h with marks := h.marks ++ [item] }, false)

/-- Go `func (h *highWaterMark) Pop() string` (non-nil receiver): returns `""` on
an empty stack, else removes and returns the last element. -/
def highWaterMark.Pop (h : highWaterMark) : highWaterMark × String :=
  if h.marks.length = 0 then (h, "")
  else ({ h with marks := h.marks.dropLast }, h.marks.getLast!)

/-! ## Stream configuration (streamer.go / stream.go)

`streamConfig` holds `Interval`, `DiscardInitial`, `MaxRequests` (plus fields
the provided engine code never reads).  The interval only determines real
tick timing, which the event traces abstract; the engine state below carries
`DiscardInitial` (mutated by the loops) and `MaxRequests`. -/

/-- The deduplication state threaded through each engine loop:
`oldIDs`/`newIDs` of `stream.go` plus the mutable `streamConfig.DiscardInitial`
flag that the item loops clear. -/
structure DedupState where
  oldIDs : set
  newIDs : set
  discardInitial : Bool
  deriving DecidableEq

/-- Go `var itemLimit = 100`. -/
def itemLimit : Nat := 100

/-- The seen-before test used by every item loop:
`newIDs.Exists(id) || oldIDs.Exists(id)`. -/
def memberGen (oldIDs newIDs : set) (id : String) : Bool :=
  newIDs.Exists id || oldIDs.Exists id

/-- The record-and-roll-over step of every item loop:
`newIDs.Add(id)` followed by
`if len(newIDs) >= itemLimit*10 { oldIDs = newIDs; newIDs = make(...) }`.
Returns the updated `(oldIDs, newIDs)`. -/
def recordID (oldIDs newIDs : set) (id : String) : set × set :=
  let new1 := newIDs.Add id
  if new1.Len ≥ itemLimit * 10 then (new1, set.empty) else (oldIDs, new1)

/-- The inner `for _, item := range items` loop shared (verbatim, up to the
identifier expression) by every engine variant in `stream.go`:
on a seen identifier it breaks; otherwise it records the identifier,
and if `DiscardInitial` is still set it clears the flag and breaks,
else it sends the item.  Returns the final state and the items sent, in
send order. -/
def pageLoop (idOf : α → String) : DedupState → List α → DedupState × List α
  | st, [] => (st, [])
  | st, item :: rest =>
    let id := idOf item
    if memberGen st.oldIDs st.newIDs id then (st, [])
    else
      let recorded := recordID st.oldIDs st.newIDs id
      if st.discardInitial then
        ({ oldIDs := recorded.1, newIDs := recorded.2, discardInitial := false }, [])
      else
        let next := pageLoop idOf { oldIDs := recorded.1, newIDs := recorded.2,
                                    discardInitial := st.discardInitial } rest
        (next.1, item :: next.2)

/-! ## Engine loops as event traces -/

/-- Outcome of one engine round for single-page streams: the `select` yields
cancellation, or a tick followed by a fetch that fails or returns a page. -/
inductive Round (α : Type) where
  | cancelled
  | fetchErr
  | fetchOk (items : List α)
  deriving DecidableEq

/-- Observable events of a single-item-channel stream. -/
inductive Ev (α : Type) where
  | tick
  | fetchAttempt
  | errOut
  | itemOut (item : α)
  | chanClosed
  deriving DecidableEq

/-- The goroutine body of `doStreamWithCustomIDGet` (stream.go).  One round:
`select` on `ctx.Done()` (return — the deferred `stop` closes the channels,
and nothing is sent on `errsCh`) or `ticker.C`; then `n++` and a fetch; on
error, send it and stop if the finite budget is exhausted; otherwise run the
item loop and stop if the finite budget is exhausted.  A schedule that runs
out while the loop would continue leaves the stream running (open trace). -/
def doStreamLoop (idOf : α → String) (maxRequests : Nat) :
    List (Round α) → DedupState → Nat → List (Ev α)
  | [], _, _ => []
  | .cancelled :: _, _, _ => [Ev.chanClosed]
  | .fetchErr :: rest, st, n =>
    Ev.tick :: Ev.fetchAttempt :: Ev.errOut ::
      (if maxRequests ≠ 0 ∧ n + 1 ≥ maxRequests then [Ev.chanClosed]
       else doStreamLoop idOf maxRequests rest st (n + 1))
  | .fetchOk items :: rest, st, n =>
    let stepped := pageLoop idOf st items
    Ev.tick :: Ev.fetchAttempt :: stepped.2.map Ev.itemOut ++
      (if maxRequests ≠ 0 ∧ n + 1 ≥ maxRequests then [Ev.chanClosed]
       else doStreamLoop idOf maxRequests rest stepped.1 (n + 1))

/-- Run `doStreamWithCustomIDGet` from its start state: empty `oldIDs` and
`newIDs`, the configured `DiscardInitial` flag, request counter `n = 0`. -/
def doStreamRun (idOf : α → String) (discardInitial : Bool) (maxRequests : Nat)
    (sched : List (Round α)) : List (Ev α) :=
  doStreamLoop idOf maxRequests sched
    { oldIDs := set.empty, newIDs := set.empty, discardInitial := discardInitial } 0

/-- The legacy (non-context) goroutine body of `StreamService.Posts`
(first version in stream.go): `for ; ; <-ticker.C { ... }`.  The loop post
statement waits for a tick only *between* iterations, so the first round
performs its fetch with no preceding tick; cancellation is never observed.
`first` records whether the loop is on its first iteration. -/
def postsLegacyLoop (idOf : α → String) (maxRequests : Nat) :
    Bool → List (Round α) → DedupState → Nat → List (Ev α)
  | _, [], _, _ => []
  | first, .cancelled :: rest, st, n =>
    -- the legacy loop has no `select` on the context; a cancellation round
    -- is invisible to it and consumes no tick
    postsLegacyLoop idOf maxRequests first rest st n
  | first, .fetchErr :: rest, st, n =>
    (if first then [] else [Ev.tick]) ++ Ev.fetchAttempt :: Ev.errOut ::
      (if maxRequests ≠ 0 ∧ n + 1 ≥ maxRequests then [Ev.chanClosed]
       else postsLegacyLoop idOf maxRequests false rest st (n + 1))
  | first, .fetchOk items :: rest, st, n =>
    let stepped := pageLoop idOf st items
    (if first then [] else [Ev.tick]) ++ Ev.fetchAttempt :: stepped.2.map Ev.itemOut ++
      (if maxRequests ≠ 0 ∧ n + 1 ≥ maxRequests then [Ev.chanClosed]
       else postsLegacyLoop idOf maxRequests false rest stepped.1 (n + 1))

/-! ## InboxUnread and Reported variants (stream.go, context-aware) -/

/-- The fields of `*Message` the inbox loop reads (`ID`, `IsComment`).  The
domain struct itself lives outside the provided engine sources. -/
structure Message where
  ID : String
  IsComment : Bool
  deriving DecidableEq

/-- Observable events of `InboxUnread` (comment channel, DM channel, error
channel). -/
inductive EvI where
  | tick
  | fetchAttempt
  | errOut
  | commentOut (m : Message)
  | dmOut (m : Message)
  | chanClosed
  deriving DecidableEq

/-- The goroutine body of the context-aware `StreamService.InboxUnread`:
identical to `doStreamWithCustomIDGet` except that on `ctx.Done()` it first
sends `ctx.Err()` on `errsCh`, and each delivered message is routed by
`post.IsComment` to the comment or DM channel. -/
def inboxUnreadLoop (maxRequests : Nat) :
    List (Round Message) → DedupState → Nat → List EvI
  | [], _, _ => []
  | .cancelled :: _, _, _ => [EvI.errOut, EvI.chanClosed]
  | .fetchErr :: rest, st, n =>
    EvI.tick :: EvI.fetchAttempt :: EvI.errOut ::
      (if maxRequests ≠ 0 ∧ n + 1 ≥ maxRequests then [EvI.chanClosed]
       else inboxUnreadLoop maxRequests rest st (n + 1))
  | .fetchOk items :: rest, st, n =>
    let stepped := pageLoop Message.ID st items
    EvI.tick :: EvI.fetchAttempt ::
      stepped.2.map (fun m => if m.IsComment then EvI.commentOut m else EvI.dmOut m) ++
      (if maxRequests ≠ 0 ∧ n + 1 ≥ maxRequests then [EvI.chanClosed]
       else inboxUnreadLoop maxRequests rest stepped.1 (n + 1))

/-- The fields of `*Post` the engine loops read: `FullID` (legacy Posts
dedup key), `ID` and `NumReports` (Reported dedup key).  The report count is
a Go `int` holding a count from the API; it is modelled as `Nat`. -/
structure Post where
  FullID : String
  ID : String
  NumReports : Nat
  deriving DecidableEq

/-- The fields of `*Comment` the Reported loop reads. -/
structure Comment where
  ID : String
  NumReports : Nat
  deriving DecidableEq

/-- Go `fmt.Sprintf("%s%d", post.ID, post.NumReports)` — the composite
deduplication key of the Reported stream. -/
def postReportKey (p : Post) : String := p.ID ++ Nat.repr p.NumReports

/-- Go `fmt.Sprintf("%s%d", comment.ID, comment.NumReports)`. -/
def commentReportKey (c : Comment) : String := c.ID ++ Nat.repr c.NumReports

/-- Outcome of one `Reported` round: the fetch returns a page of posts and a
page of comments. -/
inductive RoundR where
  | cancelled
  | fetchErr
  | fetchOk (posts : List Post) (comments : List Comment)
  deriving DecidableEq

/-- Observable events of `Reported` (post channel, comment channel, error
channel). -/
inductive EvR where
  | tick
  | fetchAttempt
  | errOut
  | postOut (p : Post)
  | commentOut (c : Comment)
  | chanClosed
  deriving DecidableEq

/-- The goroutine body of `StreamService.Reported`: on `ctx.Done()` it sends
`ctx.Err()` and returns; on a page it runs the item loop first over the posts
(with the composite post key) and then, on the resulting state, over the
comments (with the composite comment key) — both loops share `oldIDs`,
`newIDs` and the `DiscardInitial` flag. -/
def reportedLoop (maxRequests : Nat) :
    List RoundR → DedupState → Nat → List EvR
  | [], _, _ => []
  | .cancelled :: _, _, _ => [EvR.errOut, EvR.chanClosed]
  | .fetchErr :: rest, st, n =>
    EvR.tick :: EvR.fetchAttempt :: EvR.errOut ::
      (if maxRequests ≠ 0 ∧ n + 1 ≥ maxRequests then [EvR.chanClosed]
       else reportedLoop maxRequests rest st (n + 1))
  | .fetchOk posts comments :: rest, st, n =>
    let postStep := pageLoop postReportKey st posts
    let commentStep := pageLoop commentReportKey postStep.1 comments
    EvR.tick :: EvR.fetchAttempt ::
      postStep.2.map EvR.postOut ++ commentStep.2.map EvR.commentOut ++
      (if maxRequests ≠ 0 ∧ n + 1 ≥ maxRequests then [EvR.chanClosed]
       else reportedLoop maxRequests rest commentStep.1 (n + 1))

/-- Run `Reported` from its start state. -/
def reportedRun (discardInitial : Bool) (maxRequests : Nat)
    (sched : List RoundR) : List EvR :=
  reportedLoop maxRequests sched
    { oldIDs := set.empty, newIDs := set.empty, discardInitial := discardInitial } 0

/-! ## The idempotent stop function (`sync.Once` + channel closes)

Every stream variant builds
`stop := func() { once.Do(func() { ticker.Stop(); close(ch₁); ...; close(chₖ) }) }`.
`sync.Once.Do` guarantees the guarded body runs exactly once and that
concurrent callers are serialized, so an arbitrary set of sequential or
concurrent invocations is modelled as an arbitrary finite sequence of calls
against the one-shot guard.  Closing an already-closed Go channel panics;
`closeChan` therefore returns `none` (panic) on a channel already closed. -/

/-- State of a stream's shutdown resources: whether the `sync.Once` has
fired, whether the ticker was stopped, and how many times each of the
stream's channels has been closed. -/
structure StopState where
  onceDone : Bool
  tickerStopped : Bool
  chans : List Nat
  deriving DecidableEq

/-- Go `close(ch)`: panics (`none`) on an already-closed channel. -/
def closeChan (timesClosed : Nat) : Option Nat :=
  if timesClosed = 0 then some 1 else none

/-- Close every channel of the stream in order, propagating a panic. -/
def closeAll : List Nat → Option (List Nat)
  | [] => some []
  | c :: cs => do
    let c' ← closeChan c
    let cs' ← closeAll cs
    pure (c' :: cs')

/-- One invocation of the stream's `stop` function. -/
def stopCall (s : StopState) : Option StopState :=
  if s.onceDone then some s
  else do
    let chans' ← closeAll s.chans
    pure { onceDone := true, tickerStopped := true, chans := chans' }

/-- Runs `k` successive invocations of `stop` (any interleaving of concurrent
callers, as serialized by `sync.Once`). -/
def stopCalls : Nat → StopState → Option StopState
  | 0, s => some s
  | k + 1, s => (stopCall s).bind (stopCalls k)

/-- A freshly constructed stream with `c` open channels. -/
def initStopState (c : Nat) : StopState :=
  { onceDone := false, tickerStopped := false, chans := List.replicate c 0 }

/-! ## Proof-support definitions -/

/-- Predicate selecting the tick and fetch events of a trace. -/
def isTickFetch : Ev α → Bool
  | Ev.tick => true
  | Ev.fetchAttempt => true
  | _ => false

/-- Predicate selecting the fetch attempts of a trace. -/
def isFetch : Ev α → Bool
  | Ev.fetchAttempt => true
  | _ => false

/-- The strictly periodic polling pattern: `m` rounds of a tick followed by a
fetch. -/
def tickFetchSeq (α : Type) : Nat → List (Ev α)
  | 0 => []
  | m + 1 => Ev.tick :: Ev.fetchAttempt :: tickFetchSeq α m

/-- Predicate selecting the tick and fetch events of an `InboxUnread` trace. -/
def isTickFetchI : EvI → Bool
  | EvI.tick => true
  | EvI.fetchAttempt => true
  | _ => false

/-- The strictly periodic polling pattern on `InboxUnread` traces. -/
def tickFetchSeqI : Nat → List EvI
  | 0 => []
  | m + 1 => EvI.tick :: EvI.fetchAttempt :: tickFetchSeqI m

/-- Predicate selecting the tick and fetch events of a `Reported` trace. -/
def isTickFetchR : EvR → Bool
  | EvR.tick => true
  | EvR.fetchAttempt => true
  | _ => false

/-- The strictly periodic polling pattern on `Reported` traces. -/
def tickFetchSeqR : Nat → List EvR
  | 0 => []
  | m + 1 => EvR.tick :: EvR.fetchAttempt :: tickFetchSeqR m

/-- Folding the record-and-roll-over step over a list of identifiers, in
order — how the engine loops feed the two-generation set. -/
def addAll (p : set × set) (ids : List String) : set × set :=
  ids.foldl (fun q id => recordID q.1 q.2 id) p

/-- Decimal parser, the left inverse of `Nat.toDigitsCore` used to prove that
`Nat.repr` is injective. -/
def parseDigits (acc : Nat) (l : List Char) : Nat :=
  l.foldl (fun a c => a * 10 + (c.toNat - '0'.toNat)) acc

/-- A concrete family of pairwise-distinct identifiers (strings of `k`
repetitions of one character), used to instantiate universally quantified
theorems on rollover-sized inputs without element-by-element computation. -/
def witnessIDs : List String :=
  (List.range (itemLimit * 10 + 1)).map (fun k => String.mk (List.replicate k 'a'))

/-! ## Lemmas about `set` -/

theorem set.Exists_iff {s : set} {v : String} : s.Exists v = true ↔ v ∈ s := by
  simp [set.Exists, List.contains, List.elem_iff]

theorem set.Exists_eq_false_iff {s : set} {v : String} :
    s.Exists v = false ↔ v ∉ s := by
  rw [← Bool.not_eq_true, set.Exists_iff]

theorem set.Exists_Add {s : set} {v w : String} :
    (s.Add v).Exists w = (s.Exists w || w == v) := by
  by_cases hw : w = v
  · subst hw
    by_cases hv : w ∈ s
    · simp [set.Add, set.Exists, List.contains, List.elem_iff, hv]
    · simp [set.Add, set.Exists, List.contains, List.elem_iff, hv]
  · by_cases hv : v ∈ s
    · simp [set.Add, set.Exists, List.contains, List.elem_iff, hv, hw]
    · simp [set.Add, set.Exists, List.contains, List.elem_iff, hv, hw]

theorem set.Add_ne_empty {s : set} {v : String} : s.Add v ≠ set.empty := by
  by_cases hv : v ∈ s
  · simp only [set.Add, List.contains, List.elem_iff, hv]
    intro h
    rw [if_pos (by simp [hv])] at h
    rw [h] at hv
    exact (List.not_mem_nil v) hv
  · simp [set.Add, List.contains, List.elem_iff, hv, set.empty]

theorem set.Len_Add_of_not_exists {s : set} {v : String} (h : s.Exists v = false) :
    (s.Add v).Len = s.Len + 1 := by
  rw [set.Exists_eq_false_iff] at h
  simp [set.Add, List.contains, List.elem_iff, h, set.Len]

/-! ## Lemmas about `memberGen` and `recordID` -/

theorem memberGen_eq_false_iff {oldIDs newIDs : set} {x : String} :
    memberGen oldIDs newIDs x = false ↔
      newIDs.Exists x = false ∧ oldIDs.Exists x = false := by
  simp [memberGen]

theorem memberGen_recordID_of_ne {oldIDs newIDs : set} {x id : String}
    (hm : memberGen oldIDs newIDs x = false) (hne : x ≠ id) :
    memberGen (recordID oldIDs newIDs id).1 (recordID oldIDs newIDs id).2 x = false := by
  obtain ⟨hnew, hold⟩ := memberGen_eq_false_iff.mp hm
  have hAdd : (newIDs.Add id).Exists x = false := by
    rw [set.Exists_Add, hnew]
    simpa using hne
  simp only [recordID]
  by_cases hroll : (newIDs.Add id).Len ≥ itemLimit * 10
  · simp only [hroll, if_true]
    exact memberGen_eq_false_iff.mpr ⟨by rfl, hAdd⟩
  · simp only [hroll, if_false]
    exact memberGen_eq_false_iff.mpr ⟨hAdd, hold⟩

theorem memberGen_empty {id : String} : memberGen set.empty set.empty id = false := rfl

/-! ## Lemmas about `pageLoop` -/

/-- A page of entirely fresh items (pairwise distinct identifiers, none seen
before) with the discard flag clear is delivered in full, in order, and the
resulting generations are the fold of the record step over its identifiers. -/
theorem pageLoop_fresh {α : Type} (idOf : α → String) (ys : List α) :
    ∀ (st : DedupState), st.discardInitial = false →
      (ys.map idOf).Nodup →
      (∀ y ∈ ys, memberGen st.oldIDs st.newIDs (idOf y) = false) →
      pageLoop idOf st ys =
        ({ oldIDs := (addAll (st.oldIDs, st.newIDs) (ys.map idOf)).1,
           newIDs := (addAll (st.oldIDs, st.newIDs) (ys.map idOf)).2,
           discardInitial := false }, ys) := by
  induction ys with
  | nil =>
    intro st hd _ _
    cases st
    simp only [DedupState.mk.injEq] at hd ⊢
    simp [pageLoop, addAll, hd]
  | cons y rest ih =>
    intro st hd hnd hfresh
    have hy : memberGen st.oldIDs st.newIDs (idOf y) = false :=
      hfresh y (List.mem_cons_self y rest)
    have hmapnd := hnd
    rw [List.map_cons, List.nodup_cons] at hmapnd
    have hrest : ∀ z ∈ rest,
        memberGen (recordID st.oldIDs st.newIDs (idOf y)).1
          (recordID st.oldIDs st.newIDs (idOf y)).2 (idOf z) = false := by
      intro z hz
      apply memberGen_recordID_of_ne (hfresh z (List.mem_cons_of_mem y hz))
      intro hzy
      exact hmapnd.1 (hzy ▸ List.mem_map_of_mem idOf hz)
    have ihst := ih
      { oldIDs := (recordID st.oldIDs st.newIDs (idOf y)).1,
        newIDs := (recordID st.oldIDs st.newIDs (idOf y)).2,
        discardInitial := st.discardInitial }
      (by simpa using hd) hmapnd.2 (by simpa using hrest)
    rw [hd] at ihst
    simp only [pageLoop, hy, Bool.false_eq_true, if_false, hd, ihst]
    simp [addAll]

/-- With the discard flag set, a first item that has not been seen before is
recorded but not delivered, the flag is cleared, and the rest of the page is
abandoned by the `break`. -/
theorem pageLoop_discard {α : Type} (idOf : α → String) (x : α) (xs : List α)
    (st : DedupState) (hd : st.discardInitial = true)
    (hx : memberGen st.oldIDs st.newIDs (idOf x) = false) :
    pageLoop idOf st (x :: xs) =
      ({ oldIDs := (recordID st.oldIDs st.newIDs (idOf x)).1,
         newIDs := (recordID st.oldIDs st.newIDs (idOf x)).2,
         discardInitial := false }, []) := by
  simp [pageLoop, hx, hd]

/-- Starting from the empty generations, recording one fresh identifier does
not reach the rollover threshold. -/
theorem recordID_empty (id : String) :
    recordID set.empty set.empty id = (set.empty, [id]) := by
  simp [recordID, set.Add, set.empty, set.Len, List.contains, itemLimit]

/-! ## Lemmas about the stop function -/

theorem closeAll_replicate (c : Nat) :
    closeAll (List.replicate c 0) = some (List.replicate c 1) := by
  induction c with
  | zero => rfl
  | succ k ih => simp [List.replicate_succ, closeAll, closeChan, ih]

theorem stopCall_done {s : StopState} (h : s.onceDone = true) : stopCall s = some s := by
  simp [stopCall, h]

theorem stopCalls_done {s : StopState} (h : s.onceDone = true) :
    ∀ k, stopCalls k s = some s := by
  intro k
  induction k with
  | zero => rfl
  | succ m ih => simp [stopCalls, stopCall_done h, Option.bind, ih]

/-! ## Injectivity of the decimal rendering used by the Reported dedup key -/

theorem toDigitsCore_append (n : Nat) :
    ∀ (fuel : Nat), n < fuel → ∀ (ds : List Char),
      Nat.toDigitsCore 10 fuel n ds = Nat.toDigitsCore 10 fuel n [] ++ ds := by
  induction n using Nat.strong_induction_on with
  | _ n ih =>
    intro fuel hf ds
    cases fuel with
    | zero => omega
    | succ f =>
      by_cases h10 : n / 10 = 0
      · simp [Nat.toDigitsCore, h10]
      · have hlt : n / 10 < n := Nat.div_lt_self (by omega) (by omega)
        have hfl : n / 10 < f := by omega
        simp only [Nat.toDigitsCore, h10, if_false]
        rw [ih (n / 10) hlt f hfl (Nat.digitChar (n % 10) :: ds),
            ih (n / 10) hlt f hfl [Nat.digitChar (n % 10)]]
        simp

theorem toDigitsCore_fuel (n : Nat) :
    ∀ (f1 f2 : Nat), n < f1 → n < f2 →
      Nat.toDigitsCore 10 f1 n [] = Nat.toDigitsCore 10 f2 n [] := by
  induction n using Nat.strong_induction_on with
  | _ n ih =>
    intro f1 f2 h1 h2
    cases f1 with
    | zero => omega
    | succ a =>
      cases f2 with
      | zero => omega
      | succ b =>
        by_cases h10 : n / 10 = 0
        · simp [Nat.toDigitsCore, h10]
        · have hlt : n / 10 < n := Nat.div_lt_self (by omega) (by omega)
          simp only [Nat.toDigitsCore, h10, if_false]
          rw [toDigitsCore_append (n / 10) a (by omega),
              toDigitsCore_append (n / 10) b (by omega),
              ih (n / 10) hlt a b (by omega) (by omega)]

theorem parseDigits_append (l1 : List Char) (acc : Nat) (l2 : List Char) :
    parseDigits acc (l1 ++ l2) = parseDigits (parseDigits acc l1) l2 := by
  simp [parseDigits, List.foldl_append]

theorem digitChar_val {d : Nat} (h : d < 10) :
    (Nat.digitChar d).toNat - '0'.toNat = d := by
  interval_cases d <;> rfl

theorem parse_toDigits (n : Nat) : parseDigits 0 (Nat.toDigits 10 n) = n := by
  induction n using Nat.strong_induction_on with
  | _ n ih =>
    by_cases h10 : n / 10 = 0
    · have hn : n < 10 := by omega
      have : Nat.toDigits 10 n = [Nat.digitChar (n % 10)] := by
        simp [Nat.toDigits, Nat.toDigitsCore, h10]
      rw [this]
      have hv := digitChar_val (show n % 10 < 10 by omega)
      calc parseDigits 0 [Nat.digitChar (n % 10)]
          = (Nat.digitChar (n % 10)).toNat - '0'.toNat := by simp [parseDigits]
        _ = n % 10 := hv
        _ = n := Nat.mod_eq_of_lt hn
    · have hlt : n / 10 < n := Nat.div_lt_self (by omega) (by omega)
      have step : Nat.toDigits 10 n
          = Nat.toDigits 10 (n / 10) ++ [Nat.digitChar (n % 10)] := by
        show Nat.toDigitsCore 10 (n + 1) n [] = _
        simp only [Nat.toDigitsCore, h10, if_false]
        rw [toDigitsCore_append (n / 10) n (by omega)]
        rw [Nat.toDigits]
        rw [toDigitsCore_fuel (n / 10) n (n / 10 + 1) (by omega) (by omega)]
      rw [step, parseDigits_append, ih (n / 10) hlt]
      calc parseDigits (n / 10) [Nat.digitChar (n % 10)]
          = n / 10 * 10 + ((Nat.digitChar (n % 10)).toNat - '0'.toNat) := by
            simp [parseDigits]
        _ = n := by rw [digitChar_val (show n % 10 < 10 by omega)]; omega

theorem Nat_repr_injective : Function.Injective Nat.repr := by
  intro m n h
  have hd : Nat.toDigits 10 m = Nat.toDigits 10 n := by
    have := congrArg String.data h
    simpa [Nat.repr, List.asString] using this
  have := congrArg (parseDigits 0) hd
  rwa [parse_toDigits, parse_toDigits] at this

/-! ## Event classification helpers -/

@[simp] theorem isTickFetch_tick {α : Type} : isTickFetch (Ev.tick : Ev α) = true := rfl
@[simp] theorem isTickFetch_fetch {α : Type} : isTickFetch (Ev.fetchAttempt : Ev α) = true := rfl
@[simp] theorem isTickFetch_err {α : Type} : isTickFetch (Ev.errOut : Ev α) = false := rfl
@[simp] theorem isTickFetch_item {α : Type} (a : α) : isTickFetch (Ev.itemOut a) = false := rfl
@[simp] theorem isTickFetch_closed {α : Type} : isTickFetch (Ev.chanClosed : Ev α) = false := rfl

@[simp] theorem isFetch_tick {α : Type} : isFetch (Ev.tick : Ev α) = false := rfl
@[simp] theorem isFetch_fetch {α : Type} : isFetch (Ev.fetchAttempt : Ev α) = true := rfl
@[simp] theorem isFetch_err {α : Type} : isFetch (Ev.errOut : Ev α) = false := rfl
@[simp] theorem isFetch_item {α : Type} (a : α) : isFetch (Ev.itemOut a) = false := rfl
@[simp] theorem isFetch_closed {α : Type} : isFetch (Ev.chanClosed : Ev α) = false := rfl

@[simp] theorem filter_isTickFetch_map_itemOut {α : Type} (l : List α) :
    (l.map Ev.itemOut).filter isTickFetch = [] := by
  induction l with
  | nil => rfl
  | cons x xs ih => simp [ih]

@[simp] theorem countP_isFetch_map_itemOut {α : Type} (l : List α) :
    (l.map Ev.itemOut).countP isFetch = 0 := by
  induction l with
  | nil => rfl
  | cons x xs ih => simp [List.countP_cons, ih]

@[simp] theorem isTickFetchI_tick : isTickFetchI EvI.tick = true := rfl
@[simp] theorem isTickFetchI_fetch : isTickFetchI EvI.fetchAttempt = true := rfl
@[simp] theorem isTickFetchI_err : isTickFetchI EvI.errOut = false := rfl
@[simp] theorem isTickFetchI_comment (m : Message) :
    isTickFetchI (EvI.commentOut m) = false := rfl
@[simp] theorem isTickFetchI_dm (m : Message) : isTickFetchI (EvI.dmOut m) = false := rfl
@[simp] theorem isTickFetchI_closed : isTickFetchI EvI.chanClosed = false := rfl

@[simp] theorem isTickFetchR_tick : isTickFetchR EvR.tick = true := rfl
@[simp] theorem isTickFetchR_fetch : isTickFetchR EvR.fetchAttempt = true := rfl
@[simp] theorem isTickFetchR_err : isTickFetchR EvR.errOut = false := rfl
@[simp] theorem isTickFetchR_post (p : Post) : isTickFetchR (EvR.postOut p) = false := rfl
@[simp] theorem isTickFetchR_comment (c : Comment) :
    isTickFetchR (EvR.commentOut c) = false := rfl
@[simp] theorem isTickFetchR_closed : isTickFetchR EvR.chanClosed = false := rfl

@[simp] theorem filter_isTickFetchI_map_route (l : List Message) :
    (l.map (fun m => if m.IsComment then EvI.commentOut m else EvI.dmOut m)).filter
      isTickFetchI = [] := by
  induction l with
  | nil => rfl
  | cons x xs ih => by_cases hx : x.IsComment <;> simp [hx, ih]

@[simp] theorem filter_isTickFetchR_map_postOut (l : List Post) :
    (l.map EvR.postOut).filter isTickFetchR = [] := by
  induction l with
  | nil => rfl
  | cons x xs ih => simp [ih]

@[simp] theorem filter_isTickFetchR_map_commentOut (l : List Comment) :
    (l.map EvR.commentOut).filter isTickFetchR = [] := by
  induction l with
  | nil => rfl
  | cons x xs ih => simp [ih]

/-! ## C4 — recency stack capacity (code bug)

The repository's own test `TestHighWaterMark_ConstructorWithInitialItems`
(high_water_mark_test.go) seeds `NewHighWaterMark(2, "A","B","C","D")` and
expects `Len() == 2` after `Push("E")` ("capacity enforced").  The code's
capacity test `uint32(h.Len()) == h.cap` compares for equality only, so a
stack seeded beyond its capacity never evicts: the push below keeps all five
identifiers and reports no eviction. -/

/-- C4: evaluating `Push` at the failing input: a stack of capacity 2 seeded
with four identifiers retains all of them plus the new one (`Len = 5 > 2`)
and `Push` returns `false` (no eviction), contradicting both the claimed
invariant (`Len` never exceeds the capacity; eviction exactly when full)
and the repository's own test. -/
theorem highWaterMark_overseeded_push_eval :
    (NewHighWaterMark 2 ["A", "B", "C", "D"]).Push "E"
      = ({ marks := ["A", "B", "C", "D", "E"], cap := 2 }, false)
    ∧ ((NewHighWaterMark 2 ["A", "B", "C", "D"]).Push "E").1.Len = 5 := by
  constructor
  · decide
  · decide

/-! ## C9 — Top on empty vs nil stacks -/

/-- C9: `Top()` on a non-nil but empty recency stack indexes
`marks[Len()-1]` out of range and panics (modelled as `none`), for every
capacity; only the nil receiver short-circuits and returns the empty
string. -/
theorem top_empty_panics_nil_empty_string :
    (∀ cap : Nat, highWaterMark.TopFrom (some { marks := [], cap := cap }) = none)
    ∧ highWaterMark.TopFrom none = some "" :=
  ⟨fun _ => rfl, rfl⟩

/-! ## C8 — idempotent stop -/

/-- C8: invoking the stop function `k + 1` times (`sync.Once` serializes
concurrent callers, so any concurrent execution is some such sequence), on a
stream with any number `c` of channels, never panics (the result is `some`,
i.e. no double close is ever attempted), stops the ticker, and leaves every
channel closed exactly once. -/
theorem stop_idempotent_closes_once (k c : Nat) :
    stopCalls (k + 1) (initStopState c)
      = some { onceDone := true, tickerStopped := true, chans := List.replicate c 1 } := by
  have h1 : stopCall (initStopState c)
      = some { onceDone := true, tickerStopped := true, chans := List.replicate c 1 } := by
    simp [stopCall, initStopState, closeAll_replicate c]
  show (stopCall (initStopState c)).bind (stopCalls k) = _
  rw [h1]
  exact stopCalls_done rfl k

/-! ## C3 — cancellation behavior -/

/-- C3 counterexample: a posts-style stream built on `doStreamWithCustomIDGet`
that is cancelled in its first round terminates (channels closed) but sends
nothing on its error channel — the cancellation cause is not surfaced, contrary
to the claim that every stream variant reports it. -/
theorem generic_cancellation_silent_cex :
    doStreamRun Post.FullID false 0 [Round.cancelled] = [Ev.chanClosed]
    ∧ Ev.errOut ∉ doStreamRun Post.FullID false 0 [Round.cancelled] := by
  constructor
  · rfl
  · decide

/-- C3 (amended): on cancellation every variant terminates immediately —
no tick, no fetch, no further item processing, channels closed via the
deferred stop.  The `InboxUnread` and `Reported` loops first send the
cancellation cause (`ctx.Err()`) on their error channel; the
`doStreamWithCustomIDGet`-based streams return without sending it. -/
theorem cancellation_termination_amended {α : Type} (idOf : α → String)
    (maxReq maxReqI maxReqR : Nat) (rest : List (Round α))
    (restI : List (Round Message)) (restR : List RoundR)
    (st stI stR : DedupState) (n nI nR : Nat) :
    doStreamLoop idOf maxReq (Round.cancelled :: rest) st n = [Ev.chanClosed]
    ∧ inboxUnreadLoop maxReqI (Round.cancelled :: restI) stI nI
        = [EvI.errOut, EvI.chanClosed]
    ∧ reportedLoop maxReqR (RoundR.cancelled :: restR) stR nR
        = [EvR.errOut, EvR.chanClosed] :=
  ⟨rfl, rfl, rfl⟩

/-! ## C1 — the discard-initial flag -/

/-- C1 counterexample: a stream with discard-initial set fetches a first page
of two fresh posts; the claim predicts the second post is delivered, but the
`break` after clearing the flag abandons the page: the trace contains no
item at all. -/
theorem discardInitial_first_page_cex :
    doStreamRun Post.FullID true 0
        [Round.fetchOk [{ FullID := "t3_a", ID := "a", NumReports := 0 },
                        { FullID := "t3_b", ID := "b", NumReports := 0 }]]
      = [Ev.tick, Ev.fetchAttempt]
    ∧ Ev.itemOut { FullID := "t3_b", ID := "b", NumReports := 0 } ∉
        doStreamRun Post.FullID true 0
          [Round.fetchOk [{ FullID := "t3_a", ID := "a", NumReports := 0 },
                          { FullID := "t3_b", ID := "b", NumReports := 0 }]] := by
  constructor
  · decide
  · decide

/-- C1 (amended): on the first page the first new item is suppressed and
recorded, the flag is cleared, and the remainder of that page is abandoned
by the `break` — nothing from the first page is delivered.  Once the flag is
clear, any page of fresh, pairwise-distinct items (as on subsequent fetches)
is delivered in full and in order. -/
theorem discardInitial_first_page_amended {α : Type} (idOf : α → String)
    (x : α) (xs ys : List α) (st : DedupState)
    (hd : st.discardInitial = false)
    (hnd : (ys.map idOf).Nodup)
    (hfresh : ∀ y ∈ ys, memberGen st.oldIDs st.newIDs (idOf y) = false) :
    pageLoop idOf { oldIDs := set.empty, newIDs := set.empty,
                    discardInitial := true } (x :: xs)
      = ({ oldIDs := set.empty, newIDs := [idOf x], discardInitial := false }, [])
    ∧ (pageLoop idOf st ys).2 = ys := by
  constructor
  · rw [pageLoop_discard idOf x xs _ rfl memberGen_empty, recordID_empty]
  · rw [pageLoop_fresh idOf ys st hd hnd hfresh]

/-- C1 witness: the amended theorem instantiated with a concrete first page
of two posts and a concrete fresh later page. -/
theorem discardInitial_first_page_amended_witness :
    (({ oldIDs := set.empty, newIDs := ["t3_a"], discardInitial := false }
        : DedupState).discardInitial = false
      ∧ ([{ FullID := "t3_c", ID := "c", NumReports := 0 },
          { FullID := "t3_d", ID := "d", NumReports := 0 }].map Post.FullID).Nodup
      ∧ (∀ y ∈ [({ FullID := "t3_c", ID := "c", NumReports := 0 } : Post),
                { FullID := "t3_d", ID := "d", NumReports := 0 }],
          memberGen set.empty ["t3_a"] (Post.FullID y) = false))
    ∧ (pageLoop Post.FullID { oldIDs := set.empty, newIDs := set.empty,
                              discardInitial := true }
          [{ FullID := "t3_a", ID := "a", NumReports := 0 },
           { FullID := "t3_b", ID := "b", NumReports := 0 }]
        = ({ oldIDs := set.empty, newIDs := ["t3_a"], discardInitial := false }, [])
      ∧ (pageLoop Post.FullID
            { oldIDs := set.empty, newIDs := ["t3_a"], discardInitial := false }
            [{ FullID := "t3_c", ID := "c", NumReports := 0 },
             { FullID := "t3_d", ID := "d", NumReports := 0 }]).2
          = [{ FullID := "t3_c", ID := "c", NumReports := 0 },
             { FullID := "t3_d", ID := "d", NumReports := 0 }]) :=
  ⟨⟨rfl, by decide, by decide⟩,
    discardInitial_first_page_amended Post.FullID
      { FullID := "t3_a", ID := "a", NumReports := 0 }
      [{ FullID := "t3_b", ID := "b", NumReports := 0 }]
      [{ FullID := "t3_c", ID := "c", NumReports := 0 },
       { FullID := "t3_d", ID := "d", NumReports := 0 }]
      { oldIDs := set.empty, newIDs := ["t3_a"], discardInitial := false }
      rfl (by decide) (by decide)⟩

/-! ## C10 — discard-initial in the Reported stream -/

/-- C10 counterexample: a Reported stream with discard-initial set fetches a
first batch of two posts and one comment.  The claim predicts the second
post is delivered; in fact the `break` after clearing the flag abandons the
posts loop, so no post is delivered at all, while the comment is. -/
theorem reported_discard_second_post_not_delivered_cex :
    reportedRun true 0
        [RoundR.fetchOk [{ FullID := "t3_a", ID := "a", NumReports := 0 },
                         { FullID := "t3_b", ID := "b", NumReports := 0 }]
                        [{ ID := "x", NumReports := 0 }]]
      = [EvR.tick, EvR.fetchAttempt, EvR.commentOut { ID := "x", NumReports := 0 }]
    ∧ EvR.postOut { FullID := "t3_b", ID := "b", NumReports := 0 } ∉
        reportedRun true 0
          [RoundR.fetchOk [{ FullID := "t3_a", ID := "a", NumReports := 0 },
                           { FullID := "t3_b", ID := "b", NumReports := 0 }]
                          [{ ID := "x", NumReports := 0 }]] := by
  constructor
  · decide
  · decide

/-- C10 (amended): with discard-initial set and a non-empty first batch of
posts, the flag is cleared inside the posts loop, which then abandons the
rest of the posts (only the first post's key is recorded, nothing from the
posts batch is delivered); because the flag is already clear when the
comments loop of the same batch runs, every comment of the first batch
(fresh, pairwise-distinct keys) is delivered on the comments channel. -/
theorem reported_discard_amended (p : Post) (ps : List Post) (cs : List Comment)
    (hnd : (cs.map commentReportKey).Nodup)
    (hfresh : ∀ c ∈ cs, commentReportKey c ≠ postReportKey p) :
    reportedRun true 0 [RoundR.fetchOk (p :: ps) cs]
      = EvR.tick :: EvR.fetchAttempt :: cs.map EvR.commentOut := by
  have hpost : pageLoop postReportKey
      { oldIDs := set.empty, newIDs := set.empty, discardInitial := true } (p :: ps)
      = ({ oldIDs := set.empty, newIDs := [postReportKey p],
           discardInitial := false }, []) := by
    rw [pageLoop_discard postReportKey p ps _ rfl memberGen_empty, recordID_empty]
  have hfresh' : ∀ c ∈ cs,
      memberGen set.empty [postReportKey p] (commentReportKey c) = false := by
    intro c hc
    simp [memberGen, set.Exists, set.empty, List.contains, List.elem_iff, hfresh c hc]
  have hcom := pageLoop_fresh commentReportKey cs
      { oldIDs := set.empty, newIDs := [postReportKey p], discardInitial := false }
      rfl hnd hfresh'
  show reportedLoop 0 [RoundR.fetchOk (p :: ps) cs]
      { oldIDs := set.empty, newIDs := set.empty, discardInitial := true } 0 = _
  simp only [reportedLoop, hpost, hcom]
  simp [reportedLoop]

/-- C10 witness: the amended theorem instantiated with a concrete first
batch of two posts and one comment. -/
theorem reported_discard_amended_witness :
    (([({ ID := "x", NumReports := 0 } : Comment)].map commentReportKey).Nodup
      ∧ (∀ c ∈ [({ ID := "x", NumReports := 0 } : Comment)],
          commentReportKey c
            ≠ postReportKey { FullID := "t3_a", ID := "a", NumReports := 0 }))
    ∧ reportedRun true 0
        [RoundR.fetchOk [{ FullID := "t3_a", ID := "a", NumReports := 0 },
                         { FullID := "t3_b", ID := "b", NumReports := 0 }]
                        [{ ID := "x", NumReports := 0 }]]
      = EvR.tick :: EvR.fetchAttempt ::
          [({ ID := "x", NumReports := 0 } : Comment)].map EvR.commentOut :=
  ⟨⟨by decide, by decide⟩,
    reported_discard_amended { FullID := "t3_a", ID := "a", NumReports := 0 }
      [{ FullID := "t3_b", ID := "b", NumReports := 0 }]
      [{ ID := "x", NumReports := 0 }] (by decide) (by decide)⟩

/-! ## C2 — tick-before-fetch discipline -/

/-- In the context-aware engine every trace consists, when restricted to tick
and fetch events, of repeated tick-then-fetch pairs: each fetch, including
the first, is preceded by its own tick. -/
theorem doStream_alternation {α : Type} (idOf : α → String) (maxReq : Nat) :
    ∀ (sched : List (Round α)) (st : DedupState) (n : Nat),
      ∃ m, (doStreamLoop idOf maxReq sched st n).filter isTickFetch
        = tickFetchSeq α m := by
  intro sched
  induction sched with
  | nil => intro st n; exact ⟨0, rfl⟩
  | cons r rest ih =>
    intro st n
    cases r with
    | cancelled => exact ⟨0, by simp [doStreamLoop, tickFetchSeq]⟩
    | fetchErr =>
      by_cases hc : maxReq ≠ 0 ∧ n + 1 ≥ maxReq
      · exact ⟨1, by simp [doStreamLoop, hc, tickFetchSeq]⟩
      · obtain ⟨m, hm⟩ := ih st (n + 1)
        exact ⟨m + 1, by simp [doStreamLoop, hc, tickFetchSeq, hm]⟩
    | fetchOk items =>
      by_cases hc : maxReq ≠ 0 ∧ n + 1 ≥ maxReq
      · exact ⟨1, by simp [doStreamLoop, hc, tickFetchSeq]⟩
      · obtain ⟨m, hm⟩ := ih (pageLoop idOf st items).1 (n + 1)
        exact ⟨m + 1, by simp [doStreamLoop, hc, tickFetchSeq, hm]⟩

/-- The `InboxUnread` loop obeys the same tick-then-fetch discipline. -/
theorem inbox_alternation (maxReq : Nat) :
    ∀ (sched : List (Round Message)) (st : DedupState) (n : Nat),
      ∃ m, (inboxUnreadLoop maxReq sched st n).filter isTickFetchI
        = tickFetchSeqI m := by
  intro sched
  induction sched with
  | nil => intro st n; exact ⟨0, rfl⟩
  | cons r rest ih =>
    intro st n
    cases r with
    | cancelled => exact ⟨0, by simp [inboxUnreadLoop, tickFetchSeqI]⟩
    | fetchErr =>
      by_cases hc : maxReq ≠ 0 ∧ n + 1 ≥ maxReq
      · exact ⟨1, by simp [inboxUnreadLoop, hc, tickFetchSeqI]⟩
      · obtain ⟨m, hm⟩ := ih st (n + 1)
        exact ⟨m + 1, by simp [inboxUnreadLoop, hc, tickFetchSeqI, hm]⟩
    | fetchOk items =>
      by_cases hc : maxReq ≠ 0 ∧ n + 1 ≥ maxReq
      · exact ⟨1, by simp [inboxUnreadLoop, hc, tickFetchSeqI]⟩
      · obtain ⟨m, hm⟩ := ih (pageLoop Message.ID st items).1 (n + 1)
        exact ⟨m + 1, by simp [inboxUnreadLoop, hc, tickFetchSeqI, hm]⟩

/-- The `Reported` loop obeys the same tick-then-fetch discipline. -/
theorem reported_alternation (maxReq : Nat) :
    ∀ (sched : List RoundR) (st : DedupState) (n : Nat),
      ∃ m, (reportedLoop maxReq sched st n).filter isTickFetchR
        = tickFetchSeqR m := by
  intro sched
  induction sched with
  | nil => intro st n; exact ⟨0, rfl⟩
  | cons r rest ih =>
    intro st n
    cases r with
    | cancelled => exact ⟨0, by simp [reportedLoop, tickFetchSeqR]⟩
    | fetchErr =>
      by_cases hc : maxReq ≠ 0 ∧ n + 1 ≥ maxReq
      · exact ⟨1, by simp [reportedLoop, hc, tickFetchSeqR]⟩
      · obtain ⟨m, hm⟩ := ih st (n + 1)
        exact ⟨m + 1, by simp [reportedLoop, hc, tickFetchSeqR, hm]⟩
    | fetchOk posts comments =>
      by_cases hc : maxReq ≠ 0 ∧ n + 1 ≥ maxReq
      · exact ⟨1, by simp [reportedLoop, hc, tickFetchSeqR]⟩
      · obtain ⟨m, hm⟩ := ih
          (pageLoop commentReportKey (pageLoop postReportKey st posts).1 comments).1 (n + 1)
        exact ⟨m + 1, by simp [reportedLoop, hc, tickFetchSeqR, hm]⟩

/-- C2 counterexample: the legacy `for ; ; <-ticker.C` posts stream performs
its first fetch immediately: the trace of its first round contains a fetch
attempt and no tick at all. -/
theorem legacy_posts_fetch_before_first_tick_cex :
    postsLegacyLoop Post.FullID 0 true [Round.fetchOk []]
        { oldIDs := set.empty, newIDs := set.empty, discardInitial := false } 0
      = [Ev.fetchAttempt]
    ∧ Ev.tick ∉ postsLegacyLoop Post.FullID 0 true [Round.fetchOk []]
        { oldIDs := set.empty, newIDs := set.empty, discardInitial := false } 0 := by
  constructor
  · decide
  · decide

/-- C2 (amended): every context-aware engine — `doStreamWithCustomIDGet`,
`InboxUnread` and `Reported` — awaits a tick before every fetch, including
the first: its traces restricted to tick/fetch events are repeated
tick-then-fetch pairs.  The legacy non-context loops instead begin with a
fetch: on any first round that reaches the fetch, the very first event of
the trace is the fetch attempt, before any tick. -/
theorem polling_tick_discipline_amended {α : Type} (idOf : α → String)
    (maxReq maxReqI maxReqR : Nat) :
    (∀ (sched : List (Round α)) (st : DedupState) (n : Nat),
        ∃ m, (doStreamLoop idOf maxReq sched st n).filter isTickFetch
          = tickFetchSeq α m)
    ∧ (∀ (sched : List (Round Message)) (st : DedupState) (n : Nat),
        ∃ m, (inboxUnreadLoop maxReqI sched st n).filter isTickFetchI
          = tickFetchSeqI m)
    ∧ (∀ (sched : List RoundR) (st : DedupState) (n : Nat),
        ∃ m, (reportedLoop maxReqR sched st n).filter isTickFetchR
          = tickFetchSeqR m)
    ∧ (∀ (items : List α) (rest : List (Round α)) (st : DedupState) (n : Nat),
        (postsLegacyLoop idOf maxReq true (Round.fetchOk items :: rest) st n).head?
            = some Ev.fetchAttempt
        ∧ (postsLegacyLoop idOf maxReq true (Round.fetchErr :: rest) st n).head?
            = some Ev.fetchAttempt) := by
  refine ⟨doStream_alternation idOf maxReq, inbox_alternation maxReqI,
    reported_alternation maxReqR, ?_⟩
  intro items rest st n
  constructor
  · simp [postsLegacyLoop]
  · simp [postsLegacyLoop]

/-! ## C5 — finite request budget -/

@[simp] theorem countP_isFetch_comp_itemOut {α : Type} (l : List α) :
    l.countP (isFetch ∘ Ev.itemOut) = 0 := by
  induction l with
  | nil => rfl
  | cons x xs ih => simp [List.countP_cons, Function.comp, ih]

/-- With a finite budget `N` and a schedule of at least `N - n` uncancelled
rounds, the context-aware engine performs exactly `N - n` further fetch
attempts (successes and failures alike) and then closes its channels. -/
theorem doStream_budget {α : Type} (idOf : α → String) (N : Nat) :
    ∀ (sched : List (Round α)) (st : DedupState) (n : Nat),
      (∀ r ∈ sched, r ≠ Round.cancelled) → n < N → N ≤ n + sched.length →
      ∃ pre, doStreamLoop idOf N sched st n = pre ++ [Ev.chanClosed]
        ∧ pre.countP isFetch = N - n := by
  intro sched
  induction sched with
  | nil =>
    intro st n _ h1 h2
    simp only [List.length_nil] at h2
    omega
  | cons r rest ih =>
    intro st n hnc h1 h2
    have h2' : N ≤ (n + 1) + rest.length := by
      simp only [List.length_cons] at h2
      omega
    cases r with
    | cancelled => exact absurd rfl (hnc Round.cancelled (List.mem_cons_self _ _))
    | fetchErr =>
      have hN : N ≠ 0 := by omega
      by_cases hstop : n + 1 ≥ N
      · refine ⟨[Ev.tick, Ev.fetchAttempt, Ev.errOut], ?_, ?_⟩
        · have hcond : N ≠ 0 ∧ n + 1 ≥ N := ⟨hN, hstop⟩
          simp [doStreamLoop, hcond]
        · simp [List.countP_cons]
          omega
      · obtain ⟨pre, hpre, hcount⟩ := ih st (n + 1)
          (fun q hq => hnc q (List.mem_cons_of_mem _ hq)) (by omega) h2'
        refine ⟨Ev.tick :: Ev.fetchAttempt :: Ev.errOut :: pre, ?_, ?_⟩
        · simp [doStreamLoop, hstop, hpre]
        · simp [List.countP_cons, hcount]
          omega
    | fetchOk items =>
      have hN : N ≠ 0 := by omega
      by_cases hstop : n + 1 ≥ N
      · refine ⟨Ev.tick :: Ev.fetchAttempt ::
            (pageLoop idOf st items).2.map Ev.itemOut, ?_, ?_⟩
        · have hcond : N ≠ 0 ∧ n + 1 ≥ N := ⟨hN, hstop⟩
          simp [doStreamLoop, hcond]
        · simp [List.countP_cons]
          omega
      · obtain ⟨pre, hpre, hcount⟩ := ih (pageLoop idOf st items).1 (n + 1)
          (fun q hq => hnc q (List.mem_cons_of_mem _ hq)) (by omega) h2'
        refine ⟨Ev.tick :: Ev.fetchAttempt ::
            (pageLoop idOf st items).2.map Ev.itemOut ++ pre, ?_, ?_⟩
        · simp [doStreamLoop, hstop, hpre]
        · simp [List.countP_append, List.countP_cons, hcount]
          omega

/-- The legacy loop obeys the same request budget: exactly `N - n` further
fetch attempts before the channels close, on any uncancelled schedule long
enough to exhaust the budget (the tick placement differs, the budget logic
does not). -/
theorem legacy_budget {α : Type} (idOf : α → String) (N : Nat) :
    ∀ (sched : List (Round α)) (first : Bool) (st : DedupState) (n : Nat),
      (∀ r ∈ sched, r ≠ Round.cancelled) → n < N → N ≤ n + sched.length →
      ∃ pre, postsLegacyLoop idOf N first sched st n = pre ++ [Ev.chanClosed]
        ∧ pre.countP isFetch = N - n := by
  intro sched
  induction sched with
  | nil =>
    intro first st n _ h1 h2
    simp only [List.length_nil] at h2
    omega
  | cons r rest ih =>
    intro first st n hnc h1 h2
    have h2' : N ≤ (n + 1) + rest.length := by
      simp only [List.length_cons] at h2
      omega
    cases r with
    | cancelled => exact absurd rfl (hnc Round.cancelled (List.mem_cons_self _ _))
    | fetchErr =>
      have hN : N ≠ 0 := by omega
      by_cases hstop : n + 1 ≥ N
      · refine ⟨(if first then [] else [Ev.tick]) ++ [Ev.fetchAttempt, Ev.errOut], ?_, ?_⟩
        · have hcond : N ≠ 0 ∧ n + 1 ≥ N := ⟨hN, hstop⟩
          cases first <;> simp [postsLegacyLoop, hcond]
        · cases first <;> simp [List.countP_cons] <;> omega
      · obtain ⟨pre, hpre, hcount⟩ := ih false st (n + 1)
          (fun q hq => hnc q (List.mem_cons_of_mem _ hq)) (by omega) h2'
        refine ⟨(if first then [] else [Ev.tick]) ++ Ev.fetchAttempt :: Ev.errOut :: pre,
          ?_, ?_⟩
        · cases first <;> simp [postsLegacyLoop, hstop, hpre]
        · cases first <;> simp [List.countP_cons, hcount] <;> omega
    | fetchOk items =>
      have hN : N ≠ 0 := by omega
      by_cases hstop : n + 1 ≥ N
      · refine ⟨(if first then [] else [Ev.tick]) ++ Ev.fetchAttempt ::
            (pageLoop idOf st items).2.map Ev.itemOut, ?_, ?_⟩
        · have hcond : N ≠ 0 ∧ n + 1 ≥ N := ⟨hN, hstop⟩
          cases first <;> simp [postsLegacyLoop, hcond]
        · cases first <;> simp [List.countP_cons] <;> omega
      · obtain ⟨pre, hpre, hcount⟩ := ih false (pageLoop idOf st items).1 (n + 1)
          (fun q hq => hnc q (List.mem_cons_of_mem _ hq)) (by omega) h2'
        refine ⟨(if first then [] else [Ev.tick]) ++ Ev.fetchAttempt ::
            (pageLoop idOf st items).2.map Ev.itemOut ++ pre, ?_, ?_⟩
        · cases first <;> simp [postsLegacyLoop, hstop, hpre]
        · cases first <;> simp [List.countP_append, List.countP_cons, hcount] <;> omega

/-- C5: a stream with a finite request budget `N ≥ 1`, given enough polling
rounds (none cancelled), performs exactly `N` fetch attempts — counting
failed and successful fetches alike — and then closes its channels, with no
further fetch after the close.  This holds both for the context-aware engine
(`doStreamWithCustomIDGet`, starting from its initial state) and for the
legacy posts loop. -/
theorem budget_exhaustion_exact_fetches {α : Type} (idOf : α → String)
    (N : Nat) (discard : Bool) (sched : List (Round α))
    (hN : 1 ≤ N) (hlen : N ≤ sched.length)
    (hnc : ∀ r ∈ sched, r ≠ Round.cancelled) :
    (∃ pre, doStreamRun idOf discard N sched = pre ++ [Ev.chanClosed]
        ∧ pre.countP isFetch = N)
    ∧ (∃ pre, postsLegacyLoop idOf N true sched
          { oldIDs := set.empty, newIDs := set.empty, discardInitial := discard } 0
        = pre ++ [Ev.chanClosed] ∧ pre.countP isFetch = N) := by
  constructor
  · obtain ⟨pre, hpre, hcount⟩ := doStream_budget idOf N sched
      { oldIDs := set.empty, newIDs := set.empty, discardInitial := discard } 0
      hnc (by omega) (by omega)
    exact ⟨pre, hpre, by omega⟩
  · obtain ⟨pre, hpre, hcount⟩ := legacy_budget idOf N sched true
      { oldIDs := set.empty, newIDs := set.empty, discardInitial := discard } 0
      hnc (by omega) (by omega)
    exact ⟨pre, hpre, by omega⟩

/-- C5 witness: budget 2 with a schedule of two successful (empty) fetches. -/
theorem budget_exhaustion_exact_fetches_witness :
    (1 ≤ 2
      ∧ 2 ≤ ([Round.fetchOk [], Round.fetchOk []] : List (Round Post)).length
      ∧ (∀ r ∈ ([Round.fetchOk [], Round.fetchOk []] : List (Round Post)),
          r ≠ Round.cancelled))
    ∧ ((∃ pre, doStreamRun Post.FullID false 2 [Round.fetchOk [], Round.fetchOk []]
          = pre ++ [Ev.chanClosed] ∧ pre.countP isFetch = 2)
      ∧ (∃ pre, postsLegacyLoop Post.FullID 2 true [Round.fetchOk [], Round.fetchOk []]
            { oldIDs := set.empty, newIDs := set.empty, discardInitial := false } 0
          = pre ++ [Ev.chanClosed] ∧ pre.countP isFetch = 2)) :=
  ⟨⟨by decide, by decide, by decide⟩,
    budget_exhaustion_exact_fetches Post.FullID 2 false
      [Round.fetchOk [], Round.fetchOk []] (by decide) (by decide) (by decide)⟩

/-! ## C7 — composite dedup key of the Reported stream -/

theorem pageLoop_break {α : Type} (idOf : α → String) (x : α) (xs : List α)
    (st : DedupState) (hx : memberGen st.oldIDs st.newIDs (idOf x) = true) :
    pageLoop idOf st (x :: xs) = (st, []) := by
  simp [pageLoop, hx]

theorem pageLoop_nil {α : Type} (idOf : α → String) (st : DedupState) :
    pageLoop idOf st [] = (st, []) := rfl

/-- Appending decimal renderings to a common prefix is injective in the
rendered number. -/
theorem append_repr_inj {i : String} {r1 r2 : Nat}
    (h : i ++ Nat.repr r1 = i ++ Nat.repr r2) : r1 = r2 := by
  have hd := congrArg String.data h
  simp only [String.data_append] at hd
  exact Nat_repr_injective (String.ext (List.append_cancel_left hd))

/-- C7: for the Reported stream the dedup key of each item — post or
comment alike — is the item identifier concatenated with its report count.
An item reappearing in the next fetch with the same identifier but a
strictly larger report count (`r + (d + 1)`) is delivered again, while an
item reappearing with an unchanged report count is not delivered again;
this is proved for a post item (first two conjuncts) and for a comment item
(last two conjuncts). -/
theorem reported_composite_key_redelivery (f1 f2 i : String) (r d : Nat) :
    reportedRun false 0
        [RoundR.fetchOk [{ FullID := f1, ID := i, NumReports := r }] [],
         RoundR.fetchOk [{ FullID := f2, ID := i, NumReports := r + (d + 1) }] []]
      = [EvR.tick, EvR.fetchAttempt,
         EvR.postOut { FullID := f1, ID := i, NumReports := r },
         EvR.tick, EvR.fetchAttempt,
         EvR.postOut { FullID := f2, ID := i, NumReports := r + (d + 1) }]
    ∧ reportedRun false 0
        [RoundR.fetchOk [{ FullID := f1, ID := i, NumReports := r }] [],
         RoundR.fetchOk [{ FullID := f2, ID := i, NumReports := r }] []]
      = [EvR.tick, EvR.fetchAttempt,
         EvR.postOut { FullID := f1, ID := i, NumReports := r },
         EvR.tick, EvR.fetchAttempt]
    ∧ reportedRun false 0
        [RoundR.fetchOk [] [{ ID := i, NumReports := r }],
         RoundR.fetchOk [] [{ ID := i, NumReports := r + (d + 1) }]]
      = [EvR.tick, EvR.fetchAttempt,
         EvR.commentOut { ID := i, NumReports := r },
         EvR.tick, EvR.fetchAttempt,
         EvR.commentOut { ID := i, NumReports := r + (d + 1) }]
    ∧ reportedRun false 0
        [RoundR.fetchOk [] [{ ID := i, NumReports := r }],
         RoundR.fetchOk [] [{ ID := i, NumReports := r }]]
      = [EvR.tick, EvR.fetchAttempt,
         EvR.commentOut { ID := i, NumReports := r },
         EvR.tick, EvR.fetchAttempt] := by
  have hadd1 : addAll (set.empty, set.empty) [i ++ Nat.repr r]
      = (set.empty, [i ++ Nat.repr r]) := by
    simp only [addAll, List.foldl_cons, List.foldl_nil]
    exact recordID_empty _
  have h1 : pageLoop postReportKey
      { oldIDs := set.empty, newIDs := set.empty, discardInitial := false }
      [{ FullID := f1, ID := i, NumReports := r }]
      = ({ oldIDs := set.empty, newIDs := [i ++ Nat.repr r],
           discardInitial := false }, [{ FullID := f1, ID := i, NumReports := r }]) := by
    rw [pageLoop_fresh postReportKey _ _ rfl (by simp)
      (by intro y _; exact memberGen_empty)]
    simp [postReportKey, hadd1]
  have hc1 : pageLoop commentReportKey
      { oldIDs := set.empty, newIDs := set.empty, discardInitial := false }
      [{ ID := i, NumReports := r }]
      = ({ oldIDs := set.empty, newIDs := [i ++ Nat.repr r],
           discardInitial := false }, [{ ID := i, NumReports := r }]) := by
    rw [pageLoop_fresh commentReportKey _ _ rfl (by simp)
      (by intro y _; exact memberGen_empty)]
    simp [commentReportKey, hadd1]
  have hne : (i ++ Nat.repr (r + (d + 1))) ≠ (i ++ Nat.repr r) := by
    intro hcontra
    have := append_repr_inj hcontra
    omega
  have hm2 : memberGen set.empty [i ++ Nat.repr r]
      (postReportKey { FullID := f2, ID := i, NumReports := r + (d + 1) }) = false := by
    simp [memberGen, set.Exists, set.empty, List.contains, List.elem_iff,
      postReportKey, hne]
  have hm2' : memberGen set.empty [i ++ Nat.repr r]
      (postReportKey { FullID := f2, ID := i, NumReports := r }) = true := by
    simp [memberGen, set.Exists, List.contains, List.elem_iff, postReportKey]
  have hm2c : memberGen set.empty [i ++ Nat.repr r]
      (commentReportKey { ID := i, NumReports := r + (d + 1) }) = false := by
    simp [memberGen, set.Exists, set.empty, List.contains, List.elem_iff,
      commentReportKey, hne]
  have hm2c' : memberGen set.empty [i ++ Nat.repr r]
      (commentReportKey { ID := i, NumReports := r }) = true := by
    simp [memberGen, set.Exists, List.contains, List.elem_iff, commentReportKey]
  refine ⟨?_, ?_, ?_, ?_⟩
  · show reportedLoop 0 _ _ 0 = _
    simp only [reportedLoop, h1]
    simp [reportedLoop, pageLoop, hm2]
  · show reportedLoop 0 _ _ 0 = _
    simp only [reportedLoop, h1]
    simp [reportedLoop, pageLoop, hm2']
  · show reportedLoop 0 _ _ 0 = _
    simp only [reportedLoop, pageLoop_nil, hc1]
    simp [reportedLoop, pageLoop, hm2c]
  · show reportedLoop 0 _ _ 0 = _
    simp only [reportedLoop, pageLoop_nil, hc1]
    simp [reportedLoop, pageLoop, hm2c']

/-! ## C6 — the two-generation identifier set -/

theorem set.Add_of_not_mem {s : set} {v : String} (h : v ∉ s) : s.Add v = v :: s := by
  simp [set.Add, List.contains, List.elem_iff, h]

theorem addAll_append (p : set × set) (l1 l2 : List String) :
    addAll p (l1 ++ l2) = addAll (addAll p l1) l2 := by
  simp [addAll, List.foldl_append]

theorem addAll_singleton (p : set × set) (x : String) :
    addAll p [x] = recordID p.1 p.2 x := by
  simp [addAll]

/-- Before the rollover threshold is reached, all identifiers accumulate in
the new generation (in reverse insertion order) and the old generation stays
empty. -/
theorem addAll_below (l : List String) :
    l.Nodup → l.length < itemLimit * 10 →
    addAll (set.empty, set.empty) l = (set.empty, l.reverse) := by
  induction l using List.reverseRecOn with
  | nil => intro _ _; rfl
  | append_singleton l x ih =>
    intro hnd hlen
    obtain ⟨hndl, -, hdisj⟩ := List.nodup_append.mp hnd
    have hxl : x ∉ l := fun hx => hdisj hx (by simp)
    have hlenl : l.length < itemLimit * 10 := by
      simp only [List.length_append, List.length_singleton] at hlen
      omega
    rw [addAll_append, ih hndl hlenl, addAll_singleton]
    simp only [recordID]
    rw [set.Add_of_not_mem (by simpa using hxl)]
    rw [if_neg (by
      simp only [set.Len, List.length_cons, List.length_reverse]
      simp only [List.length_append, List.length_singleton] at hlen
      omega)]
    simp [List.reverse_append]

/-- Between the first and the second rollover, the old generation is exactly
the first threshold-many identifiers and the new generation the remainder
(both in reverse insertion order): precisely one rollover has occurred and
no identifier has been discarded yet. -/
theorem addAll_mid (l : List String) :
    l.Nodup → itemLimit * 10 ≤ l.length → l.length < 2 * (itemLimit * 10) →
    addAll (set.empty, set.empty) l
      = ((l.take (itemLimit * 10)).reverse, (l.drop (itemLimit * 10)).reverse) := by
  induction l using List.reverseRecOn with
  | nil =>
    intro _ hge _
    simp only [List.length_nil] at hge
    omega
  | append_singleton l x ih =>
    intro hnd hge hlt
    obtain ⟨hndl, -, hdisj⟩ := List.nodup_append.mp hnd
    have hxl : x ∉ l := fun hx => hdisj hx (by simp)
    have hlen : (l ++ [x]).length = l.length + 1 := by simp
    rw [addAll_append]
    by_cases hat : l.length + 1 = itemLimit * 10
    · -- this push reaches the threshold: the rollover fires now
      rw [addAll_below l hndl (by omega), addAll_singleton]
      simp only [recordID]
      rw [set.Add_of_not_mem (by simpa using hxl)]
      rw [if_pos (by
        simp only [set.Len, List.length_cons, List.length_reverse]
        omega)]
      have htake : (l ++ [x]).take (itemLimit * 10) = l ++ [x] := by
        apply List.take_of_length_le
        omega
      have hdrop : (l ++ [x]).drop (itemLimit * 10) = [] := by
        apply List.drop_eq_nil_of_le
        omega
      rw [htake, hdrop]
      simp [List.reverse_append, set.empty]
    · -- already past the threshold: no further rollover before 2·threshold
      have hge' : itemLimit * 10 ≤ l.length := by
        simp only [List.length_append, List.length_singleton] at hge
        omega
      have hlt' : l.length < 2 * (itemLimit * 10) := by
        simp only [List.length_append, List.length_singleton] at hlt
        omega
      rw [ih hndl hge' hlt', addAll_singleton]
      simp only [recordID]
      have hxdrop : x ∉ (l.drop (itemLimit * 10)).reverse := by
        simp only [List.mem_reverse]
        exact fun hx => hxl (List.mem_of_mem_drop hx)
      rw [set.Add_of_not_mem hxdrop]
      rw [if_neg (by
        simp only [set.Len, List.length_cons, List.length_reverse, List.length_drop]
        simp only [List.length_append, List.length_singleton] at hlt
        omega)]
      rw [List.take_append_of_le_length hge', List.drop_append_of_le_length hge']
      simp [List.reverse_append]

/-- C6: the two-generation identifier set.  (1) The membership test of the
engine succeeds exactly when the identifier is in the old or the new
generation.  (2) Recording an identifier promotes new to old and empties the
new generation exactly when the new generation's size has reached
`10 × pageSize` (`itemLimit * 10`).  (3) After adding `T + 1` distinct
identifiers (`T = itemLimit * 10`), every one of the most recent
`pageSize`-sized tail is still a member. -/
theorem twoGeneration_set_spec (l : List String)
    (hnd : l.Nodup) (hlen : l.length = itemLimit * 10 + 1) :
    (∀ (oldIDs newIDs : set) (id : String),
        memberGen oldIDs newIDs id = true
          ↔ oldIDs.Exists id = true ∨ newIDs.Exists id = true)
    ∧ (∀ (oldIDs newIDs : set) (id : String),
        (recordID oldIDs newIDs id).2 = set.empty
          ↔ itemLimit * 10 ≤ (newIDs.Add id).Len)
    ∧ (∀ id ∈ l.drop (l.length - itemLimit),
        memberGen (addAll (set.empty, set.empty) l).1
          (addAll (set.empty, set.empty) l).2 id = true) := by
  refine ⟨?_, ?_, ?_⟩
  · intro o n id
    simp only [memberGen, Bool.or_eq_true]
    tauto
  · intro o n id
    simp only [recordID]
    by_cases h : (n.Add id).Len ≥ itemLimit * 10
    · simp [h]
    · simp only [h, if_false]
      constructor
      · intro habs
        exact absurd habs set.Add_ne_empty
      · intro habs
        exact habs.elim
  · intro id hid
    have hmid := addAll_mid l hnd
      (by rw [hlen]; omega)
      (by rw [hlen]; simp [itemLimit])
    have hidl : id ∈ l := List.mem_of_mem_drop hid
    rw [hmid]
    have hsplit : id ∈ l.take (itemLimit * 10) ∨ id ∈ l.drop (itemLimit * 10) := by
      rw [← List.mem_append, List.take_append_drop]
      exact hidl
    simp only [memberGen, Bool.or_eq_true]
    rcases hsplit with h | h
    · exact Or.inr (set.Exists_iff.mpr (List.mem_reverse.mpr h))
    · exact Or.inl (set.Exists_iff.mpr (List.mem_reverse.mpr h))

/-- C6 witness: the theorem instantiated at 1001 concrete pairwise-distinct
identifiers. -/
theorem twoGeneration_set_spec_witness :
    (witnessIDs.Nodup ∧ witnessIDs.length = itemLimit * 10 + 1)
    ∧ ((∀ (oldIDs newIDs : set) (id : String),
          memberGen oldIDs newIDs id = true
            ↔ oldIDs.Exists id = true ∨ newIDs.Exists id = true)
      ∧ (∀ (oldIDs newIDs : set) (id : String),
          (recordID oldIDs newIDs id).2 = set.empty
            ↔ itemLimit * 10 ≤ (newIDs.Add id).Len)
      ∧ (∀ id ∈ witnessIDs.drop (witnessIDs.length - itemLimit),
          memberGen (addAll (set.empty, set.empty) witnessIDs).1
            (addAll (set.empty, set.empty) witnessIDs).2 id = true)) := by
  have hinj : Function.Injective (fun k : Nat => String.mk (List.replicate k 'a')) := by
    intro a b h
    have hdata := congrArg (fun s : String => s.data.length) h
    simpa using hdata
  have hnd : witnessIDs.Nodup := (List.nodup_range _).map hinj
  have hlen : witnessIDs.length = itemLimit * 10 + 1 := by
    simp [witnessIDs]
  exact ⟨⟨hnd, hlen⟩, twoGeneration_set_spec witnessIDs hnd hlen⟩
